import Mathlib

/-!
# Verification of the lexical-borrowings corpus pipeline

A shallow embedding of the core pure logic of the
`tfm-low-res-lexical-borrowings` repository: the language-identity and
semantic false-positive filters (`src/mining/cleaner.py`,
`src/pipeline/cleaner.py`, `src/pipeline/miner.py`), the per-language
synthetic-seed generators (`src/domain/generators/*.py`), the Wiktionary
seed loader (`src/domain/scrapers/wiktionary.py`), the seed-repository
dedup of `main.py::run_generation`, and the miner's sentence extraction
(`src/pipeline/miner.py::_get_sentences`).

Strings are modelled as Lean `String` (a structure over `List Char`, i.e.
a sequence of Unicode code points, matching Python's `str`).  Python's
`str.lower` is modelled as ASCII lowering (`Char.toLower`); none of the
string constants involved change under full Unicode lowering in a way
that matters here, and the regex word class `\w` is modelled as ASCII
alphanumerics, underscore, and all non-ASCII code points.
-/

namespace Borrowings

/-- ASCII lowering of a string, code point by code point
(models Python `str.lower` for the ASCII range). -/
def lowerStr (s : String) : String := ⟨s.data.map Char.toLower⟩

/-- Model of the Python regex word class `\w`: ASCII alphanumerics,
underscore, and (approximating Unicode word characters) every
non-ASCII code point. -/
def isWordChar (c : Char) : Bool := c.isAlphanum || c == '_' || decide (128 ≤ c.toNat)

/-- A lower-case ASCII letter, the character class `[a-z]`. -/
def isLowerAZ (c : Char) : Bool := 'a' ≤ c && c ≤ 'z'

/-- Splits a character list into its maximal runs of word characters
(`cur` holds the current run, reversed). -/
def wordRunsAux : List Char → List Char → List (List Char)
  | cur, [] => if cur.isEmpty then [] else [cur.reverse]
  | cur, c :: rest =>
    if isWordChar c then wordRunsAux (c :: cur) rest
    else (if cur.isEmpty then [] else [cur.reverse]) ++ wordRunsAux [] rest

/-- Maximal runs of word characters of a character list. -/
def wordRuns (cs : List Char) : List (List Char) := wordRunsAux [] cs

/-- Model of `re.findall(r'\b[a-z]+\b', text)`: the maximal word-character
runs that consist solely of `[a-z]` (a run containing a digit, an
underscore or a non-ASCII word character yields no match because `\b`
fails inside a run). -/
def azWords (text : String) : List String :=
  ((wordRuns text.data).filter (fun r => r.all isLowerAZ)).map (fun r => String.mk r)

/-- Model of Python's substring test `needle in hay`. -/
def containsSubstr (needle hay : String) : Bool :=
  hay.data.tails.any (fun t => needle.data.isPrefixOf t)

/-- The word tokens the English filter works on:
`re.findall(r'\b[a-z]+\b', sentence.lower())`. -/
def englishWords (sentence : String) : List String := azWords (lowerStr sentence)

/-- `ENGLISH_STOPWORDS` from `src/config.py`. -/
def ENGLISH_STOPWORDS : List String := [
  "the", "be", "to", "of", "and", "a", "in", "that", "have", "i", "it", "for", "not", "on", "with", "he", "as", "you", "do", "at",
  "this", "but", "his", "by", "from", "they", "we", "say", "her", "she", "or", "an", "will", "my", "one", "all", "would", "there",
  "their", "what", "so", "up", "out", "if", "about", "who", "get", "which", "go", "me", "when", "make", "can", "like", "time", "no",
  "just", "him", "know", "take", "people", "into", "year", "your", "good", "some", "could", "them", "see", "other", "than", "then",
  "now", "look", "only", "come", "its", "over", "think", "also", "back", "after", "use", "two", "how", "our", "work", "first", "well",
  "way", "even", "new", "want", "because", "any", "these", "give", "day", "most", "us", "is", "was", "are", "were", "has", "had", "been",
  "references", "external", "links", "bibliography", "source", "title", "date", "author", "publisher", "retrieved",
  "archived", "original", "page", "pages", "volume", "issue", "doi", "isbn", "issn", "pmid", "journal", "university", "press",
  "abstract", "introduction", "conclusion", "chapter"]

/-- Number of tokens of `ws` that are English stopwords
(`sum(1 for w in words if w in ENGLISH_STOPWORDS)`). -/
def stopwordCount (ws : List String) : Nat :=
  (ws.filter (fun w => ENGLISH_STOPWORDS.contains w)).length

/-- The stopword density `english_count / len(words)` as an exact rational
(Python computes it in floating point; the quantities involved are far
below the range where the two differ on the comparisons made). -/
def stopwordDensity (ws : List String) : ℚ :=
  (stopwordCount ws : ℚ) / (ws.length : ℚ)

/-- `EnglishFilter.is_english` from `src/src/mining/cleaner.py`
(threshold is the constructor parameter, default `0.25`). -/
def is_english (threshold : ℚ) (sentence : String) : Bool :=
  let text := lowerStr sentence
  let ws := englishWords sentence
  if ws.isEmpty then false
  else if containsSubstr "references" text then true
  else if containsSubstr "retrieved from" text then true
  else if ws.contains "how" && ws.contains "an" && ws.contains "our" then true
  else if containsSubstr "tongue body" text then true
  else if stopwordDensity ws > threshold then true
  else if ws.length < 6 && 2 ≤ stopwordCount ws then true
  else false

/-- `EnglishFilter.is_english` from `src/src/pipeline/cleaner.py`: same as
the mining variant but without the `"retrieved from"` and
`"tongue body"` marker branches. -/
def pipeline_is_english (threshold : ℚ) (sentence : String) : Bool :=
  let text := lowerStr sentence
  let ws := englishWords sentence
  if ws.isEmpty then false
  else if containsSubstr "references" text then true
  else if ws.contains "how" && ws.contains "an" && ws.contains "our" then true
  else if stopwordDensity ws > threshold then true
  else if ws.length < 6 && 2 ≤ stopwordCount ws then true
  else false

/-- True when any hard-coded marker branch of the mining
`is_english` fires. -/
def hasMarker (sentence : String) : Bool :=
  let text := lowerStr sentence
  let ws := englishWords sentence
  containsSubstr "references" text ||
  containsSubstr "retrieved from" text ||
  (ws.contains "how" && ws.contains "an" && ws.contains "our") ||
  containsSubstr "tongue body" text

/-- `is_english` at the default threshold `0.25`, with the density
comparison replaced by the equivalent cross-multiplied comparison on
naturals, so that it evaluates by kernel reduction. -/
def is_english_calc (sentence : String) : Bool :=
  let text := lowerStr sentence
  let ws := englishWords sentence
  if ws.isEmpty then false
  else if containsSubstr "references" text then true
  else if containsSubstr "retrieved from" text then true
  else if ws.contains "how" && ws.contains "an" && ws.contains "our" then true
  else if containsSubstr "tongue body" text then true
  else if ws.length < 4 * stopwordCount ws then true
  else if ws.length < 6 && 2 ≤ stopwordCount ws then true
  else false

theorem stopwordDensity_gt_quarter_iff (ws : List String) (h : ¬ ws.isEmpty) :
    stopwordDensity ws > 1/4 ↔ ws.length < 4 * stopwordCount ws := by
  have hlen : 0 < ws.length := by
    cases ws with
    | nil => simp at h
    | cons a l => simp
  have hl : (0 : ℚ) < (ws.length : ℚ) := by exact_mod_cast hlen
  unfold stopwordDensity
  rw [gt_iff_lt, lt_div_iff₀ hl]
  constructor
  · intro hx
    have := (mul_lt_mul_left (show (0:ℚ) < 4 by norm_num)).mpr hx
    rw [show (4:ℚ) * (1/4 * (ws.length:ℚ)) = (ws.length:ℚ) by ring] at this
    exact_mod_cast this
  · intro hx
    have hx' : (ws.length : ℚ) < 4 * (stopwordCount ws : ℚ) := by exact_mod_cast hx
    calc (1/4 : ℚ) * (ws.length : ℚ) < 1/4 * (4 * (stopwordCount ws : ℚ)) := by
          exact (mul_lt_mul_left (by norm_num)).mpr hx'
    _ = (stopwordCount ws : ℚ) := by ring

theorem is_english_quarter_eq (s : String) : is_english (1/4) s = is_english_calc s := by
  unfold is_english is_english_calc
  by_cases h0 : (englishWords s).isEmpty
  · simp [h0]
  · simp only [h0, if_false, Bool.false_eq_true]
    congr 4
    by_cases hq : stopwordDensity (englishWords s) > 1/4
    · rw [if_pos hq, if_pos ((stopwordDensity_gt_quarter_iff _ h0).mp hq)]
    · rw [if_neg hq, if_neg (fun hc => hq ((stopwordDensity_gt_quarter_iff _ h0).mpr hc))]

example : englishWords "Aaa bbb, ccc1 και the" = ["aaa", "bbb", "the"] := by decide

/-- A sentence of 8 word tokens, exactly 2 of them stopwords (density
exactly 0.25), which nevertheless contains the marker substring
`"references"` (inside the non-stopword token `referencess`). -/
def thresholdCx : String := "referencess the of aaa bbb ccc ddd eee"

/-- C1 counterexample: `is_english` DOES flag a sentence whose stopword
density is exactly the 0.25 threshold, because the hard-coded marker
branches run before the density comparison: `thresholdCx` tokenizes to
8 words with exactly 2 stopwords (density exactly 1/4) yet both the
mining and the pipeline `is_english` flag it (its text contains the
substring `"references"`). -/
theorem is_english_threshold_cx :
    (englishWords thresholdCx).length = 8 ∧
    stopwordCount (englishWords thresholdCx) = 2 ∧
    stopwordDensity (englishWords thresholdCx) = 1/4 ∧
    is_english (1/4) thresholdCx = true ∧
    pipeline_is_english (1/4) thresholdCx = true := by
  refine ⟨by decide, by decide, ?_, by decide, by decide⟩
  have hc : stopwordCount (englishWords thresholdCx) = 2 := by decide
  have hl : (englishWords thresholdCx).length = 8 := by decide
  unfold stopwordDensity
  rw [hc, hl]
  norm_num

/-- C1 (amended): at the default threshold 0.25, a sentence with at
least one word token and stopword density strictly greater than the
threshold is always flagged; and a sentence whose density does not
exceed the threshold (in particular, density exactly equal to it) is
not flagged PROVIDED it triggers none of the hard-coded marker
branches.  (No token-count proviso is needed at this threshold: the
short-sentence branch requires at least 2 stopwords among fewer than 6
tokens, hence density at least 2/5 > 1/4.) -/
theorem is_english_threshold_boundary (s : String)
    (hw : ¬ (englishWords s).isEmpty) :
    (stopwordDensity (englishWords s) > 1/4 → is_english (1/4) s = true) ∧
    (hasMarker s = false → ¬ stopwordDensity (englishWords s) > 1/4 →
      is_english (1/4) s = false) := by
  constructor
  · intro hd
    unfold is_english
    dsimp only
    split_ifs <;> simp_all
  · intro hm hd
    have hd' : ¬ (englishWords s).length < 4 * stopwordCount (englishWords s) :=
      fun hc => hd ((stopwordDensity_gt_quarter_iff _ hw).mpr hc)
    simp only [hasMarker, Bool.or_eq_false_iff, Bool.and_eq_false_iff] at hm
    unfold is_english
    dsimp only
    split_ifs <;> simp_all
    all_goals omega

/-- Witness for C1 (amended), at the claim's own example shapes: a
marker-free sentence of 8 word tokens with exactly 2 stopwords (density
exactly 0.25) is not flagged, one with 3 stopwords (density
0.375 > 0.25) is flagged, and a marker-free 4-token sentence with 1
stopword (density again exactly 0.25) is also not flagged. -/
theorem is_english_threshold_boundary_witness :
    is_english (1/4) "aaa bbb ccc ddd eee fff the of" = false ∧
    is_english (1/4) "aaa bbb ccc ddd eee the of and" = true ∧
    is_english (1/4) "aaa bbb ccc the" = false := by
  refine ⟨?_, ?_, ?_⟩
  · exact (is_english_threshold_boundary "aaa bbb ccc ddd eee fff the of"
      (by decide)).2 (by decide)
      (by rw [stopwordDensity_gt_quarter_iff _ (by decide)]; decide)
  · exact (is_english_threshold_boundary "aaa bbb ccc ddd eee the of and"
      (by decide)).1
      (by rw [stopwordDensity_gt_quarter_iff _ (by decide)]; decide)
  · exact (is_english_threshold_boundary "aaa bbb ccc the"
      (by decide)).2 (by decide)
      (by rw [stopwordDensity_gt_quarter_iff _ (by decide)]; decide)

/-- C10: both variants of `is_english` are total Boolean functions, and
on any sentence with no lower-case ASCII-letter token (after
lower-casing) they return `false` at once — the stopword-density
quotient is guarded by this emptiness test and is never formed with a
zero denominator. -/
theorem is_english_no_words_false (θ : ℚ) (s : String)
    (h : englishWords s = []) :
    is_english θ s = false ∧ pipeline_is_english θ s = false := by
  unfold is_english pipeline_is_english
  simp [h]

/-- Witness for C10 on a sentence written entirely in Greek script. -/
theorem is_english_no_words_false_witness :
    englishWords "Το τρολ έκανε ποστ στο διαδίκτυο." = [] ∧
    is_english (1/4) "Το τρολ έκανε ποστ στο διαδίκτυο." = false ∧
    pipeline_is_english (1/4) "Το τρολ έκανε ποστ στο διαδίκτυο." = false :=
  ⟨by decide,
   (is_english_no_words_false (1/4) _ (by decide)).1,
   (is_english_no_words_false (1/4) _ (by decide)).2⟩

/-! ## Semantic false-positive filters -/

/-- A mined corpus record, as consumed by the cleaning filters
(`entry` dict in `src/src/mining/cleaner.py`; the further JSON fields
`type`, `pos`, `source_page` are never read by the filters). -/
structure Entry where
  term : String
  lemma' : String
  lang : String
  sentence : String
deriving DecidableEq

/-- `SemanticFilter.false_contexts` from `src/src/mining/cleaner.py`. -/
def false_contexts : List (String × List String) := [
  ("post", ["rugbi", "tenis", "fútbol", "gol", "meta", "washington", "huffington", "diariu", "periódicu", "oficina"]),
  ("chat", ["mont-du-chat", "chapelle", "lac", "savoie", "saboya", "comuña", "francia", "oise"]),
  ("bot", ["bot.", "zool.", "biol.", "sociedá", "nat.", "ser."]),
  ("bug", ["bunny", "looney", "river", "rio"]),
  ("hack", ["hack-a-shaq"]),
  ("ban", ["ki-moon", "ki-mun", "banes", "bans", "jura", "cubanu", "croacia", "croatia", "hungary", "hungría", "12th", "xii"]),
  ("log", ["logarithm", "logaritmo", "les loges", "equation", "ecuación", "ph", "=", "+", "funtzio", "matemática"]),
  ("troll", ["mitoloxía", "mythology", "gnome", "dwarf", "fantasy", "tolkien", "harry potter"]),
  ("check", ["republic", "checa", "chess", "xedrez"]),
  ("cloud", ["strife", "final fantasy", "saint-cloud"])]

/-- `SemanticFilter.homonym_terms` from `src/src/mining/cleaner.py`.
In the source the set literal reads `..., "banatzen", "banak" "απ",`:
the missing comma after `"banak"` makes Python concatenate the two
adjacent literals, so the set's last element is the single string
`"banakαπ"` (and `"απ"` on its own is NOT a member). -/
def homonym_terms : List String :=
  ["postes", "poste", "postiar", "postiáu", "bana", "banatu", "banatzen", "banakαπ"]

/-- The digital-context rescue keywords of the `lang == 'ast'` homonym
branch of `SemanticFilter.is_false_positive`. -/
def digital_keywords : List String :=
  ["internet", "blog", "web", "rede", "social", "facebook", "twitter", "instagram", "online"]

/-- The final block of `SemanticFilter.is_false_positive`: look the
(lowered) lemma up in `false_contexts` and flag when any trigger occurs
in the (lowered) sentence as a substring. -/
def contextTriggerHit (lemma' sentence : String) : Bool :=
  match false_contexts.lookup lemma' with
  | some triggers => triggers.any (fun t => containsSubstr t sentence)
  | none => false

/-- `SemanticFilter.is_false_positive` from `src/src/mining/cleaner.py`. -/
def is_false_positive (e : Entry) : Bool :=
  let term := lowerStr e.term
  let lem := lowerStr e.lemma'
  let sentence := lowerStr e.sentence
  let lang := e.lang
  if lang == "eu" && lem == "ban" then true
  else if lang == "el" && term == "απ" then true
  else if lang == "ast" && homonym_terms.contains term
      && !(digital_keywords.any (fun k => containsSubstr k sentence)) then true
  else contextTriggerHit lem sentence

/-- `FALSE_POSITIVES` from `src/src/pipeline/miner.py`. -/
def FALSE_POSITIVES : List (String × List String) := [
  ("scan", ["Scania", "Skåne", "VABIS", "Saab", "Volkswagen"]),
  ("ban", ["Ki-moon", "Ki-mun", "Ban Ki", "Naciones Xuníes"]),
  ("bug", ["Bugs Bunny", "Bunny", "Looney", "Warner", "Disney", "Rabbit"]),
  ("post", ["Washington Post", "The Post", "New York Post", "post reges", "Post-Newsweek", "Post-punk", "post-punk"]),
  ("bot", ["Bot.", "Zool.", "Acta Bot", "Nat.,Bot", "Ser. Bot"]),
  ("scroll", ["Elder Scrolls", "Mojang", "Scrolls", "Morrowind", "Oblivion"]),
  ("like", ["Like a Rolling Stone", "Like a Prayer", "Like a Virgin", "Nothing\x27s Shocking", "Smells Like Teen Spirit"]),
  ("hack", ["Hack-a-Shaq", "Hack and slash", "hack and slash"])]

/-- `WikipediaMiner._is_semantic_false_positive` from
`src/src/pipeline/miner.py`: case-sensitive substring matching against
the curated per-lemma trigger table. -/
def is_semantic_false_positive (lemma' term sentence : String) : Bool :=
  if lemma' == "bot" && term == "bot" && containsSubstr "Bot." sentence then true
  else match FALSE_POSITIVES.lookup lemma' with
       | some triggers => triggers.any (fun t => containsSubstr t sentence)
       | none => false

theorem containsSubstr_iff (needle hay : String) :
    containsSubstr needle hay = true ↔ needle.data <:+: hay.data := by
  unfold containsSubstr
  rw [List.any_eq_true]
  constructor
  · rintro ⟨t, ht, hp⟩
    rw [ List.isPrefixOf_iff_prefix] at hp
    exact ( List.infix_iff_prefix_suffix).mpr ⟨t, hp, (List.mem_tails _ _).mp ht⟩
  · intro hinf
    obtain ⟨t, hp, hs⟩ := ( List.infix_iff_prefix_suffix).mp hinf
    exact ⟨t, (List.mem_tails _ _).mpr hs, ( List.isPrefixOf_iff_prefix).mpr hp⟩

/-- C2: for every entry whose lemma has an entry in the miner's curated
trigger table `FALSE_POSITIVES`, the semantic false-positive filter
flags it if and only if some trigger of that lemma occurs in the
sentence as a case-sensitive substring.  (The special `bot`/`Bot.`
short-circuit is subsumed: `"Bot."` is itself a trigger of `"bot"`.) -/
theorem is_semantic_false_positive_iff (lemma' term sentence : String)
    (triggers : List String)
    (h : FALSE_POSITIVES.lookup lemma' = some triggers) :
    is_semantic_false_positive lemma' term sentence = true ↔
      ∃ t ∈ triggers, t.data <:+: sentence.data := by
  unfold is_semantic_false_positive
  split_ifs with hbot
  · simp only [Bool.and_eq_true, beq_iff_eq] at hbot
    obtain ⟨⟨hl, -⟩, hb⟩ := hbot
    subst hl
    have : triggers = ["Bot.", "Zool.", "Acta Bot", "Nat.,Bot", "Ser. Bot"] := by
      have hlk : FALSE_POSITIVES.lookup "bot" =
          some ["Bot.", "Zool.", "Acta Bot", "Nat.,Bot", "Ser. Bot"] := by decide
      rw [h] at hlk
      exact (Option.some.injEq _ _).mp hlk
    subst this
    simp only [true_iff]
    exact ⟨"Bot.", by decide, (containsSubstr_iff _ _).mp hb⟩
  · rw [h]
    simp only [List.any_eq_true]
    constructor
    · rintro ⟨t, ht, hc⟩
      exact ⟨t, ht, (containsSubstr_iff _ _).mp hc⟩
    · rintro ⟨t, ht, hc⟩
      exact ⟨t, ht, (containsSubstr_iff _ _).mpr hc⟩

/-- Witness for C2: the lemma `"bug"` has `"Bugs Bunny"` among its
triggers; a sentence containing that exact substring is flagged, and a
sentence (about an insect) containing no trigger of `"bug"` is not. -/
theorem is_semantic_false_positive_iff_witness :
    FALSE_POSITIVES.lookup "bug" =
      some ["Bugs Bunny", "Bunny", "Looney", "Warner", "Disney", "Rabbit"] ∧
    is_semantic_false_positive "bug" "bug" "A cameo by Bugs Bunny today" = true ∧
    is_semantic_false_positive "bug" "bug" "An insect crawled over a leaf" = false := by
  refine ⟨by decide, ?_, ?_⟩
  · exact (is_semantic_false_positive_iff "bug" "bug" "A cameo by Bugs Bunny today"
      ["Bugs Bunny", "Bunny", "Looney", "Warner", "Disney", "Rabbit"]
      (by decide)).mpr ⟨"Bugs Bunny", by decide, by decide⟩
  · have hiff := is_semantic_false_positive_iff "bug" "bug"
      "An insect crawled over a leaf"
      ["Bugs Bunny", "Bunny", "Looney", "Warner", "Disney", "Rabbit"] (by decide)
    rw [← Bool.not_eq_true]
    intro ht
    exact absurd (hiff.mp ht) (by decide)

/-- Entry with a homonym-listed term but language `"eu"`: the rescue
branch only runs for `lang == 'ast'`, so the entry is NOT dropped even
though no rescue keyword is present. -/
def homonymCxA : Entry :=
  ⟨"poste", "poste", "eu", "un poste cerca la casa vieya"⟩

/-- Asturian entry with a homonym-listed term and the rescue keyword
`"internet"` present, whose lemma `"post"` has the curated trigger
`"rugbi"` in the sentence: the entry is dropped despite the keyword. -/
def homonymCxB : Entry :=
  ⟨"poste", "post", "ast", "el poste de rugbi apaez na internet"⟩

/-- C3 counterexample: the claim fails in both directions as stated.
`homonymCxA` has its term in the native-homonym list and no
digital-context keyword in the sentence, yet it is kept
(`is_false_positive` returns `false`, because the homonym branch is
gated on `lang == 'ast'`); `homonymCxB` has its term in the list and
contains the keyword `"internet"`, yet it is dropped (a curated trigger
of its lemma occurs in the sentence). -/
theorem homonym_rescue_cx :
    (homonym_terms.contains (lowerStr homonymCxA.term) = true ∧
      digital_keywords.any
        (fun k => containsSubstr k (lowerStr homonymCxA.sentence)) = false ∧
      is_false_positive homonymCxA = false) ∧
    (homonym_terms.contains (lowerStr homonymCxB.term) = true ∧
      containsSubstr "internet" (lowerStr homonymCxB.sentence) = true ∧
      is_false_positive homonymCxB = true) := by
  decide

/-- C3 (amended): for every entry of language `"ast"` whose (lowered)
term is in the native-homonym list, the filter drops the entry when the
sentence contains no digital-context rescue keyword; when such a
keyword is present the homonym branch is bypassed, and the entry is
kept provided additionally no curated trigger of its lemma occurs in
the sentence. -/
theorem homonym_rescue (e : Entry)
    (hlang : e.lang = "ast")
    (hterm : homonym_terms.contains (lowerStr e.term) = true) :
    (digital_keywords.any
        (fun k => containsSubstr k (lowerStr e.sentence)) = false →
      is_false_positive e = true) ∧
    (digital_keywords.any
        (fun k => containsSubstr k (lowerStr e.sentence)) = true →
      contextTriggerHit (lowerStr e.lemma') (lowerStr e.sentence) = false →
      is_false_positive e = false) := by
  have c1 : (("ast" : String) == "eu") = false := by decide
  have c2 : (("ast" : String) == "el") = false := by decide
  have hm : lowerStr e.term ∈ homonym_terms := by simpa using hterm
  constructor
  · intro hnokw
    simp [is_false_positive, hlang, c1, c2, hterm, hm, hnokw]
  · intro hkw hctx
    simp [is_false_positive, hlang, c1, c2, hterm, hm, hkw, hctx]

/-- Witness for C3 (amended): the Asturian homonym `"poste"` with no
rescue keyword is dropped; with the keyword `"internet"` present (and
no curated trigger firing) it is kept. -/
theorem homonym_rescue_witness :
    is_false_positive ⟨"poste", "poste", "ast", "un poste cerca la casa"⟩ = true ∧
    is_false_positive ⟨"poste", "poste", "ast", "el poste na internet"⟩ = false :=
  ⟨(homonym_rescue ⟨"poste", "poste", "ast", "un poste cerca la casa"⟩
      rfl (by decide)).1 (by decide),
   (homonym_rescue ⟨"poste", "poste", "ast", "el poste na internet"⟩
      rfl (by decide)).2 (by decide) (by decide)⟩

/-! ## Synthetic seed generators -/

/-- `V_ROOTS` from `src/config.py` (action roots). -/
def V_ROOTS : List String := [
  "click", "post", "chat", "link", "tag", "tweet",
  "scan", "format", "hack", "ban", "log", "reset",
  "download", "stream", "like", "scroll", "update",
  "forward", "spam", "check", "spoiler", "troll"]

/-- `N_ROOTS` from `src/config.py` (entity roots, noun-only). -/
def N_ROOTS : List String := [
  "bug", "server", "cloud", "software", "hardware",
  "online", "interface", "user", "bot", "app", "pixel"]

/-- `ALL_ROOTS` from `src/config.py`. -/
def ALL_ROOTS : List String := V_ROOTS ++ N_ROOTS

/-- `GREEK_TRANSLITERATION` from `src/config.py`. -/
def GREEK_TRANSLITERATION : List (String × String) := [
  ("click", "κλικ"), ("post", "ποστ"), ("chat", "τσατ"), ("link", "λινκ"),
  ("tag", "ταγκ"), ("tweet", "τουίτ"), ("scan", "σκαν"), ("format", "φορμάτ"),
  ("hack", "χακ"), ("ban", "μπαν"), ("log", "λογκ"), ("reset", "ρισέτ"),
  ("download", "νταουνλόουντ"), ("stream", "στριμ"), ("like", "λάικ"),
  ("scroll", "σκρολ"), ("update", "απντέιτ"), ("forward", "φόργουορντ"),
  ("spam", "σπαμ"), ("check", "τσεκ"), ("spoiler", "σπόιλερ"),
  ("pixel", "πίξελ"), ("bug", "μπαγκ"), ("server", "σέρβερ"),
  ("cloud", "κλάουντ"), ("software", "σόφτγουερ"), ("hardware", "χάρντγουερ"),
  ("online", "ονλάιν"), ("interface", "ιντερφέις"), ("user", "γιούζερ"),
  ("bot", "μποτ"), ("app", "απ"), ("troll", "τρολ")]

/-- The part-of-speech enumeration `{NOUN, VERB, UNKNOWN}` of the spec's
data model.  The source stores it stringly: generators write `"NOUN"` /
`"VERB"`, the Wiktionary loader writes `"-"` for "not specified". -/
inductive Pos where
  | NOUN : Pos
  | VERB : Pos
  | UNKNOWN : Pos
deriving DecidableEq

/-- The string the source stores for each `Pos` value. -/
def Pos.str : Pos → String
  | Pos.NOUN => "NOUN"
  | Pos.VERB => "VERB"
  | Pos.UNKNOWN => "-"

/-- A seed record: exactly the five fields built by
`BorrowingGenerator._make_seed` (`src/domain/generators/base.py`) and by
`WiktionaryScraper.load_seeds`.  (`lemma` and `type` are Lean keywords,
hence the primed field names.) -/
structure Seed where
  term : String
  lemma' : String
  lang : String
  type' : String
  pos : Pos
deriving DecidableEq

/-- `BorrowingGenerator._make_seed` from `src/domain/generators/base.py`
(`lang` is the generator's constructor-fixed language code). -/
def make_seed (lang term lemma' type' : String) (pos : Pos) : Seed :=
  { term := term, lemma' := lemma', lang := lang, type' := type', pos := pos }

/-- `BorrowingGenerator.is_action_root`: a root is action-denoting iff
it is not in `N_ROOTS`. -/
def is_action_root (root : String) : Bool := !(N_ROOTS.contains root)

/-- The vowels of the Python membership tests `c in "aeiou"`. -/
def vowels : List Char := ['a', 'e', 'i', 'o', 'u']

/-- Python `s.startswith(pre)`. -/
def pyStartsWith (s pre : String) : Bool := pre.data.isPrefixOf s.data

/-- Python `s.endswith(suf)`. -/
def pyEndsWith (s suf : String) : Bool := suf.data.reverse.isPrefixOf s.data.reverse

/-- Python `s[:-1]`. -/
def dropLastStr (s : String) : String := ⟨s.data.dropLast⟩

/-- Fuel-driven engine of Python `str.replace`: replaces every
non-overlapping occurrence of `pat`, scanning left to right.  One unit
of fuel is spent per consumed character, and a replacement consumes
`pat.length ≥ 1` characters, so `fuel = length of the subject` always
suffices. -/
def pyReplaceAux (pat rep : List Char) : Nat → List Char → List Char
  | _, [] => []
  | 0, s => s
  | fuel + 1, c :: rest =>
    if pat.isPrefixOf (c :: rest) then
      rep ++ pyReplaceAux pat rep fuel ((c :: rest).drop pat.length)
    else c :: pyReplaceAux pat rep fuel rest

/-- Python `s.replace(pat, rep)` (all occurrences, left to right,
non-overlapping).  The sources never call it with an empty pattern; in
that unused case this model returns `s` unchanged. -/
def pyReplace (s pat rep : String) : String :=
  if pat.data.isEmpty then s
  else ⟨pyReplaceAux pat.data rep.data s.data.length s.data⟩

/-- The epenthetic-vowel test shared by the Asturian and Basque
generators: `stem.startswith("s") and len(stem) > 1 and
stem[1] not in "aeiou"`. -/
def needsEpentheticE (stem : String) : Bool :=
  pyStartsWith stem "s" && decide (1 < stem.data.length)
    && !(vowels.contains (stem.data.getD 1 'a'))

/-- `adapt_spelling` (nested in
`AsturianGenerator.generate_for_root`). -/
def adapt_spelling (base suf : String) : String :=
  if pyEndsWith base "g" && pyStartsWith suf "i" then base ++ "u" ++ suf
  else if pyEndsWith base "ck" && pyStartsWith suf "i" then
    dropLastStr (dropLastStr base) ++ "qu" ++ suf
  else if pyEndsWith base "k" && pyStartsWith suf "i" then
    dropLastStr base ++ "qu" ++ suf
  else base ++ suf

/-- The base-stem logic of `AsturianGenerator.generate_for_root`:
epenthetic `e` before an initial `s`+consonant cluster, then the
`tweet -> tuit` rewrite. -/
def asturianStem (root : String) : String :=
  let stem1 := if needsEpentheticE root then ⟨'e' :: root.data⟩ else root
  if containsSubstr "tweet" stem1 then pyReplace stem1 "tweet" "tuit" else stem1

/-- `AsturianGenerator.generate_for_root` from
`src/domain/generators/asturian.py`.  (For the empty root — on which
Python would raise `IndexError` at `stem[-1]` — the `getLastD` default
makes this model total; the claims only concern non-empty roots.) -/
def asturian_generate_for_root (root : String) : List Seed :=
  let stem := asturianStem root
  let plural_native :=
    if vowels.contains (stem.data.getLastD 'a') then stem ++ "s" else stem ++ "es"
  let plural_english := stem ++ "s"
  let nouns :=
    [make_seed "ast" stem root "noun_raw" Pos.NOUN,
     make_seed "ast" plural_native root "noun_plural_native" Pos.NOUN] ++
    (if plural_english ≠ plural_native then
      [make_seed "ast" plural_english root "noun_plural_english" Pos.NOUN] else [])
  let lightVerbs :=
    if is_action_root root then
      ["facer", "fizo", "fai", "facemos", "faen", "faciendo", "fechu"].flatMap
        (fun aux =>
          [make_seed "ast" (aux ++ " " ++ stem) root "verb_light_construction" Pos.VERB,
           make_seed "ast" (aux ++ " un " ++ stem) root "verb_light_construction" Pos.VERB])
    else []
  if N_ROOTS.contains root then nouns ++ lightVerbs
  else
    let verb_stem :=
      if pyEndsWith stem "e" && (root == "like" || root == "update")
      then dropLastStr stem else stem
    let prescriptive := adapt_spelling verb_stem "iar"
    let descriptive := verb_stem ++ "iar"
    nouns ++ lightVerbs ++
    [make_seed "ast" prescriptive root "verb_morph_prescriptive" Pos.VERB,
     make_seed "ast" (adapt_spelling verb_stem "iáu") root "verb_participle_prescriptive" Pos.VERB] ++
    (if descriptive ≠ prescriptive then
      [make_seed "ast" descriptive root "verb_morph_descriptive" Pos.VERB,
       make_seed "ast" (pyReplace descriptive "iar" "iáu") root "verb_participle_descriptive" Pos.VERB]
     else [])

/-- The phonetic-adaptation chain of
`BasqueGenerator.generate_for_root`: lower-case, the ordered digraph
rewrites `ch->tx`, `sh->x`, `ck->k`, `c->k`, `q->k`, the
`tweet -> tuit` rewrite, then epenthetic `e`. -/
def basquePhoneticStem (root : String) : String :=
  let p1 := pyReplace (lowerStr root) "ch" "tx"
  let p2 := pyReplace p1 "sh" "x"
  let p3 := pyReplace p2 "ck" "k"
  let p4 := pyReplace p3 "c" "k"
  let p5 := pyReplace p4 "q" "k"
  let p6 := if containsSubstr "tweet" p5 then pyReplace p5 "tweet" "tuit" else p5
  if needsEpentheticE p6 then ⟨'e' :: p6.data⟩ else p6

/-- `BasqueGenerator.generate_for_root` from
`src/domain/generators/basque.py` (same totalisation remark as for the
Asturian generator). -/
def basque_generate_for_root (root : String) : List Seed :=
  let phonetic_stem := basquePhoneticStem root
  let nouns :=
    [make_seed "eu" root root "noun_raw" Pos.NOUN,
     make_seed "eu"
       (if pyEndsWith phonetic_stem "a" then phonetic_stem else phonetic_stem ++ "a")
       root "noun_integrated_sg" Pos.NOUN,
     make_seed "eu"
       (if pyEndsWith phonetic_stem "a" then phonetic_stem ++ "k" else phonetic_stem ++ "ak")
       root "noun_integrated_pl" Pos.NOUN]
  if N_ROOTS.contains root then nouns
  else
    let lightVerbs :=
      [" egin", " egiten", " egingo", " egin du", " egin zen"].map
        (fun aux => make_seed "eu" (phonetic_stem ++ aux) root "verb_light_construction" Pos.VERB)
    let verb_stem :=
      if pyEndsWith phonetic_stem "e" && (root == "like" || root == "update")
      then dropLastStr phonetic_stem else phonetic_stem
    let connector := if !(vowels.contains (verb_stem.data.getLastD 'a')) then "a" else ""
    nouns ++ lightVerbs ++
    [make_seed "eu" (verb_stem ++ connector ++ "tu") root "verb_morph_integrated" Pos.VERB,
     make_seed "eu" (verb_stem ++ connector ++ "tzen") root "verb_habitual" Pos.VERB]

/-- The diacritic stripping
`gk_stem.translate(str.maketrans("άέίόύήώ", "αειουηω"))` of the Greek
generator. -/
def stripGreekAccents (s : String) : String :=
  ⟨s.data.map (fun c =>
    if c = 'ά' then 'α' else if c = 'έ' then 'ε' else if c = 'ί' then 'ι'
    else if c = 'ό' then 'ο' else if c = 'ύ' then 'υ' else if c = 'ή' then 'η'
    else if c = 'ώ' then 'ω' else c)⟩

/-- `GreekGenerator.generate_for_root` from
`src/domain/generators/greek.py` (`self.trans_map.get(root, "")`
becomes a lookup with default `""`; the Python truthiness test
`if gk_stem:` becomes a non-emptiness test). -/
def greek_generate_for_root (root : String) : List Seed :=
  let auxiliaries := ["κάνω", "κάνει", "έκανε", "κάνοντας"]
  let base := [make_seed "el" root root "cs_latin_raw" Pos.NOUN]
  let lightLatin :=
    if is_action_root root then
      auxiliaries.map (fun aux => make_seed "el" (aux ++ " " ++ root) root "verb_light_latin" Pos.VERB)
    else []
  let gk_stem := (GREEK_TRANSLITERATION.lookup root).getD ""
  let translit :=
    if gk_stem ≠ "" then
      [make_seed "el" gk_stem root "noun_transliterated" Pos.NOUN] ++
      (if is_action_root root then
        auxiliaries.map (fun aux => make_seed "el" (aux ++ " " ++ gk_stem) root "verb_light_greek" Pos.VERB) ++
        [make_seed "el" (stripGreekAccents gk_stem ++ "άρω") root "verb_morph_aro" Pos.VERB,
         make_seed "el" (stripGreekAccents gk_stem ++ "αρισμένος") root "verb_participle" Pos.VERB]
       else [])
    else []
  base ++ lightLatin ++ translit

theorem forall_mem_flatMap {α β : Type} {l : List α} {f : α → List β} {p : β → Prop} :
    (∀ x ∈ l.flatMap f, p x) ↔ ∀ a ∈ l, ∀ x ∈ f a, p x := by
  simp only [List.mem_flatMap]
  constructor
  · intro h a ha x hx
    exact h x ⟨a, ha, hx⟩
  · rintro h x ⟨a, ha, hx⟩
    exact h a ha x hx

theorem forall_mem_ite {α : Type} {c : Prop} [Decidable c] {l₁ l₂ : List α} {p : α → Prop} :
    (∀ x ∈ (if c then l₁ else l₂), p x) ↔ ((c → ∀ x ∈ l₁, p x) ∧ (¬c → ∀ x ∈ l₂, p x)) := by
  split_ifs with h <;> simp [h]

/-- C4: for every entity-denoting root (member of `N_ROOTS`) and each of
the three language generators, no generated seed has part-of-speech
`VERB`. -/
theorem entity_roots_generate_no_verb :
    ∀ root ∈ N_ROOTS,
      (∀ s ∈ asturian_generate_for_root root, s.pos ≠ Pos.VERB) ∧
      (∀ s ∈ basque_generate_for_root root, s.pos ≠ Pos.VERB) ∧
      (∀ s ∈ greek_generate_for_root root, s.pos ≠ Pos.VERB) := by
  decide

/-- Witness for C4 at the entity root `"bug"`. -/
theorem entity_roots_generate_no_verb_witness :
    "bug" ∈ N_ROOTS ∧
      ((∀ s ∈ asturian_generate_for_root "bug", s.pos ≠ Pos.VERB) ∧
       (∀ s ∈ basque_generate_for_root "bug", s.pos ≠ Pos.VERB) ∧
       (∀ s ∈ greek_generate_for_root "bug", s.pos ≠ Pos.VERB)) :=
  ⟨by decide, entity_roots_generate_no_verb "bug" (by decide)⟩

/-- C9: for every non-empty root, every seed any of the three generators
returns is a `Seed` record (exactly the fields
`{term, lemma, lang, type, pos}`, by the definition of `Seed`) whose
`lemma` is the input root unchanged, whose `lang` is the generator's
fixed language code, and whose `pos` is `NOUN` or `VERB`. -/
theorem generator_seed_invariants (root : String) (hne : root ≠ "") :
    (∀ s ∈ asturian_generate_for_root root,
      s.lemma' = root ∧ s.lang = "ast" ∧ (s.pos = Pos.NOUN ∨ s.pos = Pos.VERB)) ∧
    (∀ s ∈ basque_generate_for_root root,
      s.lemma' = root ∧ s.lang = "eu" ∧ (s.pos = Pos.NOUN ∨ s.pos = Pos.VERB)) ∧
    (∀ s ∈ greek_generate_for_root root,
      s.lemma' = root ∧ s.lang = "el" ∧ (s.pos = Pos.NOUN ∨ s.pos = Pos.VERB)) := by
  refine ⟨?_, ?_, ?_⟩ <;>
    simp only [asturian_generate_for_root, basque_generate_for_root,
      greek_generate_for_root] <;>
    simp [forall_mem_ite, forall_mem_flatMap, List.forall_mem_append,
      List.forall_mem_cons, List.forall_mem_map, make_seed] <;>
    aesop

/-- Witness for C9 at the non-empty root `"click"`. -/
theorem generator_seed_invariants_witness :
    ("click" : String) ≠ "" ∧
      ((∀ s ∈ asturian_generate_for_root "click",
        s.lemma' = "click" ∧ s.lang = "ast" ∧ (s.pos = Pos.NOUN ∨ s.pos = Pos.VERB)) ∧
       (∀ s ∈ basque_generate_for_root "click",
        s.lemma' = "click" ∧ s.lang = "eu" ∧ (s.pos = Pos.NOUN ∨ s.pos = Pos.VERB)) ∧
       (∀ s ∈ greek_generate_for_root "click",
        s.lemma' = "click" ∧ s.lang = "el" ∧ (s.pos = Pos.NOUN ∨ s.pos = Pos.VERB))) :=
  ⟨by decide, generator_seed_invariants "click" (by decide)⟩

/-! ## Wiktionary seed loading and seed-repository dedup -/

/-- A row of the Wiktionary CSV (`term, target_lang, origin_lang,
source_category`; the category column is never read by
`load_seeds`). -/
structure WikRow where
  term : String
  target_lang : String
  origin_lang : String
deriving DecidableEq

/-- `WiktionaryScraper.load_seeds` from
`src/domain/scrapers/wiktionary.py`: each kept row becomes a seed with
`term = lemma = row.term`, `lang = row.target_lang`,
`type = "wiktionary_" + row.origin_lang` and `pos = "-"` (unknown).
Python's truthiness test `if target_langs and ...` becomes a
non-emptiness test (the no-filter `None` default is modelled as
`[]`). -/
def load_seeds (target_langs : List String) (rows : List WikRow) : List Seed :=
  rows.filterMap (fun r =>
    if !target_langs.isEmpty && !(target_langs.contains r.target_lang) then none
    else some ⟨r.term, r.term, r.target_lang, "wiktionary_" ++ r.origin_lang, Pos.UNKNOWN⟩)

/-- C7: every seed the Wiktionary loader produces carries a `type`
prefixed by the provenance marker `"wiktionary_"` (the suffix being the
row's origin language), and has part-of-speech `UNKNOWN` (stored as
`"-"` in the source). -/
theorem load_seeds_provenance (target_langs : List String) (rows : List WikRow)
    (s : Seed) (hs : s ∈ load_seeds target_langs rows) :
    (∃ r ∈ rows, s.type' = "wiktionary_" ++ r.origin_lang ∧
      s.term = r.term ∧ s.lemma' = r.term ∧ s.lang = r.target_lang) ∧
    pyStartsWith s.type' "wiktionary_" = true ∧
    s.pos = Pos.UNKNOWN := by
  simp only [load_seeds, List.mem_filterMap] at hs
  obtain ⟨r, hr, heq⟩ := hs
  split_ifs at heq
  obtain rfl := (Option.some.injEq _ _).mp heq
  refine ⟨⟨r, hr, rfl, rfl, rfl, rfl⟩, ?_, rfl⟩
  unfold pyStartsWith
  rw [ List.isPrefixOf_iff_prefix]
  show ("wiktionary_" : String).data <+: (("wiktionary_" : String) ++ r.origin_lang).data
  rw [String.data_append]
  exact List.prefix_append _ _

/-- Witness for C7 on a concrete single-row CSV. -/
theorem load_seeds_provenance_witness :
    (⟨"xat", "xat", "eu", "wiktionary_en", Pos.UNKNOWN⟩ : Seed) ∈
      load_seeds ["ast", "eu", "el"] [⟨"xat", "eu", "en"⟩] ∧
    ((∃ r ∈ [(⟨"xat", "eu", "en"⟩ : WikRow)],
        (⟨"xat", "xat", "eu", "wiktionary_en", Pos.UNKNOWN⟩ : Seed).type' =
          "wiktionary_" ++ r.origin_lang ∧
        (⟨"xat", "xat", "eu", "wiktionary_en", Pos.UNKNOWN⟩ : Seed).term = r.term ∧
        (⟨"xat", "xat", "eu", "wiktionary_en", Pos.UNKNOWN⟩ : Seed).lemma' = r.term ∧
        (⟨"xat", "xat", "eu", "wiktionary_en", Pos.UNKNOWN⟩ : Seed).lang = r.target_lang) ∧
      pyStartsWith (⟨"xat", "xat", "eu", "wiktionary_en", Pos.UNKNOWN⟩ : Seed).type'
        "wiktionary_" = true ∧
      (⟨"xat", "xat", "eu", "wiktionary_en", Pos.UNKNOWN⟩ : Seed).pos = Pos.UNKNOWN) :=
  ⟨by decide,
   load_seeds_provenance ["ast", "eu", "el"] [⟨"xat", "eu", "en"⟩] _ (by decide)⟩

/-- The dedup key of `main.py::run_generation`
(`df.drop_duplicates(subset=['term', 'lang', 'type'])`). -/
def seedKey (s : Seed) : String × String × String := (s.term, s.lang, s.type')

/-- The engine of pandas `drop_duplicates(keep='first')` on the seed
key: keep an element iff its key has not been seen before. -/
def dedupSeedsAux : List (String × String × String) → List Seed → List Seed
  | _, [] => []
  | seen, s :: rest =>
    if seedKey s ∈ seen then dedupSeedsAux seen rest
    else s :: dedupSeedsAux (seedKey s :: seen) rest

/-- `df.drop_duplicates(subset=['term', 'lang', 'type'])` of
`main.py::run_generation`: first occurrence of each key wins, input
order preserved. -/
def drop_duplicates (l : List Seed) : List Seed := dedupSeedsAux [] l

/-- The seed repository `run_generation` builds: generator output
followed by Wiktionary seeds, then deduplicated. -/
def run_generation_seeds (generated wiktionary : List Seed) : List Seed :=
  drop_duplicates (generated ++ wiktionary)

theorem dedupSeedsAux_key_not_seen (seen : List (String × String × String))
    (l : List Seed) : ∀ t ∈ dedupSeedsAux seen l, seedKey t ∉ seen := by
  induction l generalizing seen with
  | nil => intro t ht; exact absurd ht (by simp [dedupSeedsAux])
  | cons s rest ih =>
    intro t ht
    unfold dedupSeedsAux at ht
    split_ifs at ht with hseen
    · exact ih seen t ht
    · rcases List.mem_cons.mp ht with rfl | hmem
      · exact hseen
      · intro habs
        exact (ih _ t hmem) (List.mem_cons_of_mem _ habs)

theorem dedupSeedsAux_pairwise (seen : List (String × String × String))
    (l : List Seed) :
    (dedupSeedsAux seen l).Pairwise (fun a b => seedKey a ≠ seedKey b) := by
  induction l generalizing seen with
  | nil => simp [dedupSeedsAux]
  | cons s rest ih =>
    unfold dedupSeedsAux
    split_ifs with hseen
    · exact ih seen
    · refine List.Pairwise.cons ?_ (ih _)
      intro b hb
      have := dedupSeedsAux_key_not_seen _ _ b hb
      intro habs
      exact this (by rw [← habs]; exact List.mem_cons_self _ _)

theorem dedupSeedsAux_sublist (seen : List (String × String × String))
    (l : List Seed) : (dedupSeedsAux seen l).Sublist l := by
  induction l generalizing seen with
  | nil => simp [dedupSeedsAux]
  | cons s rest ih =>
    unfold dedupSeedsAux
    split_ifs with hseen
    · exact (ih seen).cons s
    · exact (ih _).cons₂ s

theorem dedupSeedsAux_find (seen : List (String × String × String))
    (l : List Seed) :
    ∀ t ∈ dedupSeedsAux seen l,
      l.find? (fun u => seedKey u == seedKey t) = some t := by
  induction l generalizing seen with
  | nil => intro t ht; exact absurd ht (by simp [dedupSeedsAux])
  | cons s rest ih =>
    intro t ht
    unfold dedupSeedsAux at ht
    split_ifs at ht with hseen
    · have hne : seedKey s ≠ seedKey t := by
        intro habs
        exact dedupSeedsAux_key_not_seen seen rest t ht (habs ▸ hseen)
      rw [List.find?_cons_of_neg _ (by simpa using hne)]
      exact ih seen t ht
    · rcases List.mem_cons.mp ht with rfl | hmem
      · exact List.find?_cons_of_pos _ (by simp)
      · have hne : seedKey s ≠ seedKey t := by
          intro habs
          exact dedupSeedsAux_key_not_seen _ rest t hmem
            (habs ▸ List.mem_cons_self _ _)
        rw [List.find?_cons_of_neg _ (by simpa using hne)]
        exact ih _ t hmem

theorem dedupSeedsAux_covers (seen : List (String × String × String))
    (l : List Seed) :
    ∀ s ∈ l, seedKey s ∈ seen ∨ ∃ t ∈ dedupSeedsAux seen l, seedKey t = seedKey s := by
  induction l generalizing seen with
  | nil => simp
  | cons x rest ih =>
    intro s hs
    unfold dedupSeedsAux
    split_ifs with hseen
    · rcases List.mem_cons.mp hs with rfl | hmem
      · exact Or.inl hseen
      · exact ih seen s hmem
    · rcases List.mem_cons.mp hs with rfl | hmem
      · exact Or.inr ⟨s, List.mem_cons_self _ _, rfl⟩
      · rcases ih (seedKey x :: seen) s hmem with hin | ⟨t, ht, hk⟩
        · rcases List.mem_cons.mp hin with heq | hin'
          · exact Or.inr ⟨x, List.mem_cons_self _ _, heq.symm⟩
          · exact Or.inl hin'
        · exact Or.inr ⟨t, List.mem_cons_of_mem _ ht, hk⟩

/-- C5: for every generated-seeds list followed by dictionary-sourced
seeds, the merged repository (a) contains no two seeds sharing the
`(term, lang, type)` key, (b) is a sublist of the concatenated input
(insertion order preserved), (c) represents every key of the input, and
(d) each kept seed is exactly the FIRST occurrence of its key in the
concatenated input. -/
theorem run_generation_dedup (generated wiktionary : List Seed) :
    (run_generation_seeds generated wiktionary).Pairwise
        (fun a b => seedKey a ≠ seedKey b) ∧
    (run_generation_seeds generated wiktionary).Sublist (generated ++ wiktionary) ∧
    (∀ s ∈ generated ++ wiktionary,
      ∃ t ∈ run_generation_seeds generated wiktionary, seedKey t = seedKey s) ∧
    (∀ t ∈ run_generation_seeds generated wiktionary,
      (generated ++ wiktionary).find? (fun u => seedKey u == seedKey t) = some t) := by
  refine ⟨dedupSeedsAux_pairwise [] _, dedupSeedsAux_sublist [] _, ?_, dedupSeedsAux_find [] _⟩
  intro s hs
  rcases dedupSeedsAux_covers [] (generated ++ wiktionary) s hs with hin | h
  · exact absurd hin (by simp)
  · exact h

example :
    run_generation_seeds
      [⟨"klik", "click", "eu", "noun_raw", Pos.NOUN⟩,
       ⟨"klik", "click", "eu", "noun_raw", Pos.VERB⟩,
       ⟨"klik", "click", "eu", "noun_integrated_sg", Pos.NOUN⟩]
      [⟨"klik", "klik", "eu", "noun_raw", Pos.UNKNOWN⟩] =
    [⟨"klik", "click", "eu", "noun_raw", Pos.NOUN⟩,
     ⟨"klik", "click", "eu", "noun_integrated_sg", Pos.NOUN⟩] := by decide

/-! ## The cleaning stage over corpus files -/

/-- One line of a mined `.jsonl` corpus file, as seen by
`MiningCleaner.clean_file`:
* `blank` — only whitespace, skipped before parsing;
* `malformed` — `json.loads` raises `JSONDecodeError`, which the
  source catches and skips;
* `nonRecord` — `json.loads` succeeds but the value is not a dict with
  a string `sentence` entry (e.g. `{}`, `5`, `["x"]`): then
  `obj['sentence']` raises `KeyError`/`TypeError`, which `clean_file`
  does NOT catch;
* `record e` — a dict with a string `sentence` (the other fields are
  read with `.get(..., '')`, so a missing `term`/`lemma`/`lang`
  defaults to the empty string inside `e`). -/
inductive CorpusLine where
  | blank : CorpusLine
  | malformed : CorpusLine
  | nonRecord : CorpusLine
  | record : Entry → CorpusLine
deriving DecidableEq

/-- The parsed records of a line list, in order. -/
def parsedRecords (lines : List CorpusLine) : List Entry :=
  lines.filterMap (fun l => match l with
    | CorpusLine.record e => some e
    | _ => none)

/-- The loop of `MiningCleaner.clean_file` from
`src/src/mining/cleaner.py`: returns the kept records (in input order)
and the two drop counters `(dropped_eng, dropped_sem)`, or `none` when
the loop raises an uncaught exception (a `nonRecord` line), in which
case the run produces no output at all.  The filters are the defaults
of `MiningCleaner.__init__`: `EnglishFilter()` at threshold `0.25` and
the `SemanticFilter`. -/
def clean_file_lines : List CorpusLine → Option (List Entry × Nat × Nat)
  | [] => some ([], 0, 0)
  | CorpusLine.blank :: rest => clean_file_lines rest
  | CorpusLine.malformed :: rest => clean_file_lines rest
  | CorpusLine.nonRecord :: _ => none
  | CorpusLine.record e :: rest =>
    match clean_file_lines rest with
    | none => none
    | some r =>
      if is_english (1/4) e.sentence then some (r.1, r.2.1 + 1, r.2.2)
      else if is_false_positive e then some (r.1, r.2.1, r.2.2 + 1)
      else some (e :: r.1, r.2.1, r.2.2)

/-- C8 (code bug): the source catches only `json.JSONDecodeError`, so a
line that `json.loads` accepts but that is not a record with a string
`sentence` field raises an uncaught `KeyError`/`TypeError` at
`obj['sentence']` and crashes the whole cleaning stage (`none`) — the
stage does NOT terminate normally on every input file.  On files free
of such lines the claimed behaviour does hold: a line that fails JSON
parsing (and a blank line) is skipped without touching either drop
counter, the outcome equals that of cleaning the parseable record
lines alone, and inserting a malformed line anywhere changes
nothing. -/
theorem clean_file_non_record_crash (lines pre post : List CorpusLine)
    (hok : CorpusLine.nonRecord ∉ lines) :
    clean_file_lines (pre ++ CorpusLine.nonRecord :: post) = none ∧
    clean_file_lines lines =
      clean_file_lines ((parsedRecords lines).map CorpusLine.record) ∧
    clean_file_lines (pre ++ CorpusLine.malformed :: post) =
      clean_file_lines (pre ++ post) := by
  refine ⟨?_, ?_, ?_⟩
  · induction pre with
    | nil => rfl
    | cons l rest ih =>
      cases l with
      | blank => simpa [clean_file_lines] using ih
      | malformed => simpa [clean_file_lines] using ih
      | nonRecord => rfl
      | record e => simp only [List.cons_append, clean_file_lines, List.append_eq, ih]
  · revert hok
    induction lines with
    | nil => exact fun _ => rfl
    | cons l rest ih =>
      intro hok'
      have hok_rest : CorpusLine.nonRecord ∉ rest :=
        fun h => hok' (List.mem_cons_of_mem _ h)
      cases l with
      | blank => simpa [clean_file_lines, parsedRecords] using ih hok_rest
      | malformed => simpa [clean_file_lines, parsedRecords] using ih hok_rest
      | nonRecord => exact absurd (List.mem_cons_self _ _) hok'
      | record e =>
        simp only [clean_file_lines, parsedRecords, List.filterMap_cons, List.map_cons]
        have ih' := ih hok_rest
        rw [show parsedRecords rest =
              rest.filterMap (fun l => match l with
                | CorpusLine.record e => some e
                | _ => none) from rfl] at ih'
        rw [ih']
  · induction pre with
    | nil => rfl
    | cons l rest ih =>
      cases l with
      | blank => simpa [clean_file_lines] using ih
      | malformed => simpa [clean_file_lines] using ih
      | nonRecord => rfl
      | record e => simp only [List.cons_append, clean_file_lines, List.append_eq, ih]

/-- Witness for C8 (code bug) at a concrete three-line file (and a
concrete crashing file `[record, nonRecord, blank]`). -/
theorem clean_file_non_record_crash_witness :
    clean_file_lines
        ([CorpusLine.record ⟨"click", "click", "ast", "fai click equí"⟩] ++
          CorpusLine.nonRecord :: [CorpusLine.blank]) = none ∧
    clean_file_lines
        [CorpusLine.blank, CorpusLine.record ⟨"click", "click", "ast", "fai click equí"⟩,
          CorpusLine.malformed] =
      clean_file_lines
        ((parsedRecords
          [CorpusLine.blank, CorpusLine.record ⟨"click", "click", "ast", "fai click equí"⟩,
            CorpusLine.malformed]).map CorpusLine.record) ∧
    clean_file_lines
        ([CorpusLine.record ⟨"click", "click", "ast", "fai click equí"⟩] ++
          CorpusLine.malformed :: [CorpusLine.blank]) =
      clean_file_lines
        ([CorpusLine.record ⟨"click", "click", "ast", "fai click equí"⟩] ++ [CorpusLine.blank]) :=
  clean_file_non_record_crash
    [CorpusLine.blank, CorpusLine.record ⟨"click", "click", "ast", "fai click equí"⟩,
      CorpusLine.malformed]
    [CorpusLine.record ⟨"click", "click", "ast", "fai click equí"⟩]
    [CorpusLine.blank] (by decide)

/-! ## The miner's sentence extraction -/

/-- The whitespace class of Python `str.strip()` (the ASCII part;
`'\n'` has already been replaced by a space when stripping happens in
`_get_sentences`). -/
def pyIsSpaceChar (c : Char) : Bool :=
  c == ' ' || c == '\t' || c == '\n' || c == '\r' || c == '\x0b' || c == '\x0c'

/-- Python `sent.strip()` on a character list. -/
def pyStripL (cs : List Char) : List Char :=
  ((cs.dropWhile pyIsSpaceChar).reverse.dropWhile pyIsSpaceChar).reverse

theorem length_dropWhile_le' {α : Type} (p : α → Bool) (l : List α) :
    (l.dropWhile p).length ≤ l.length := by
  induction l with
  | nil => simp
  | cons a t ih =>
    rw [List.dropWhile_cons]
    split_ifs
    · exact le_trans ih (Nat.le_succ _)
    · simp

/-- The splitter `re.split(r'(?<=[.!?]) +', text)`: a maximal run of
spaces immediately preceded by `.`, `!` or `?` separates two sentences
and is consumed.  `acc` holds the current sentence, reversed.  One unit
of fuel is spent per step and each step consumes at least one input
character, so `fuel = length of the input` always suffices (the
fuel-exhausted arm is unreachable then). -/
def splitSentencesAux : Nat → List Char → List Char → List (List Char)
  | _, acc, [] => [acc.reverse]
  | 0, acc, cs => [acc.reverse ++ cs]
  | fuel + 1, acc, c :: rest =>
    if (c == '.' || c == '!' || c == '?') && rest.head? == some ' ' then
      (acc.reverse ++ [c]) :: splitSentencesAux fuel [] (rest.dropWhile (fun x => x == ' '))
    else splitSentencesAux fuel (c :: acc) rest

/-- `re.split(r'(?<=[.!?]) +', text.replace('\n', ' '))` from
`WikipediaMiner._get_sentences`. -/
def splitSentencesList (text : String) : List (List Char) :=
  splitSentencesAux (pyReplace text "\n" " ").data.length [] (pyReplace text "\n" " ").data

/-- Case-insensitive prefix match (the regex engine compares the
subject characters against the escaped term characters under
`re.IGNORECASE`, modelled by ASCII lowering). -/
def ciPrefix : List Char → List Char → Bool
  | [], _ => true
  | _ :: _, [] => false
  | p :: ps, c :: cs => (Char.toLower p == Char.toLower c) && ciPrefix ps cs

/-- Word-character test of an optional character (`none` stands for
"outside the subject string", which the regex treats as a
non-word position). -/
def isWordOpt : Option Char → Bool
  | none => false
  | some c => isWordChar c

/-- The regex word boundary `\b`: the two sides disagree on
word-character-ness. -/
def boundary (a b : Option Char) : Bool := isWordOpt a != isWordOpt b

/-- The character before position `i`, if any. -/
def getPrev (cs : List Char) (i : Nat) : Option Char :=
  if i = 0 then none else cs.get? (i - 1)

/-- A match of `\b<term>\b` (with `re.IGNORECASE`) at position `i` of
`cs`: the term matches case-insensitively starting at `i`, with a word
boundary before position `i` and another after position
`i + term.length`. -/
def matchAt (term cs : List Char) (i : Nat) : Bool :=
  ciPrefix term (cs.drop i) && boundary (getPrev cs i) (cs.get? i)
    && boundary (getPrev cs (i + term.length)) (cs.get? (i + term.length))

/-- `re.search(r'\b' + re.escape(term) + r'\b', sent, re.IGNORECASE)
is not None`: some position of `cs` carries a whole-word,
case-insensitive match of `term`. -/
def occursWW (term cs : List Char) : Bool :=
  (List.range (cs.length + 1)).any (fun i => matchAt term cs i)

/-- `WikipediaMiner._get_sentences` from `src/src/pipeline/miner.py`:
split into sentences, keep those with a whole-word case-insensitive
occurrence of the term whose stripped form has length strictly between
10 and 500, and return the stripped forms. -/
def get_sentences (text term : String) : List String :=
  (splitSentencesList text).filterMap (fun sent =>
    if occursWW term.data sent then
      let clean_sent := pyStripL sent
      if 10 < clean_sent.length && clean_sent.length < 500
      then some (String.mk clean_sent) else none
    else none)

example : splitSentencesList "Aaa bbb. Ccc ddd! Eee" =
    ["Aaa bbb.".data, "Ccc ddd!".data, "Eee".data] := by decide

example : occursWW "click".data "Click HERE now".data = true := by decide

example : occursWW "click".data "clicking here".data = false := by decide

example : get_sentences "The users click here. No match there." "Click" =
    ["The users click here."] := by decide

theorem ciPrefix_length (term xs : List Char) (h : ciPrefix term xs = true) :
    term.length ≤ xs.length := by
  induction term generalizing xs with
  | nil => simp
  | cons p ps ih =>
    cases xs with
    | nil => simp [ciPrefix] at h
    | cons x xt =>
      simp only [ciPrefix, Bool.and_eq_true] at h
      exact Nat.succ_le_succ (ih xt h.2)

theorem ciPrefix_append (term xs ys : List Char) (h : term.length ≤ xs.length) :
    ciPrefix term (xs ++ ys) = ciPrefix term xs := by
  induction term generalizing xs with
  | nil => rfl
  | cons p ps ih =>
    cases xs with
    | nil => simp at h
    | cons x xt =>
      simp only [List.cons_append, ciPrefix, List.append_eq]
      rw [ih xt (by simpa using h)]

theorem boundary_congr (a a' b b' : Option Char)
    (ha : isWordOpt a = isWordOpt a') (hb : isWordOpt b = isWordOpt b') :
    boundary a b = boundary a' b' := by
  unfold boundary
  rw [ha, hb]

theorem matchAt_cons_zero (term : List Char) (c : Char) (cs : List Char)
    (hc : isWordChar c = false) : matchAt term (c :: cs) 0 = false := by
  unfold matchAt getPrev
  simp [boundary, isWordOpt, hc]

theorem matchAt_cons_succ (term : List Char) (c : Char) (cs : List Char)
    (hc : isWordChar c = false) (i : Nat) :
    matchAt term (c :: cs) (i + 1) = matchAt term cs i := by
  have h2 : ∀ j : Nat, (c :: cs).get? (j + 1) = cs.get? j := fun j => rfl
  have h3 : ∀ j : Nat, isWordOpt (getPrev (c :: cs) (j + 1)) = isWordOpt (getPrev cs j) := by
    intro j
    unfold getPrev
    cases j with
    | zero => simp [isWordOpt, hc]
    | succ k => simp
  have hb1 : boundary (getPrev (c :: cs) (i + 1)) ((c :: cs).get? (i + 1)) =
      boundary (getPrev cs i) (cs.get? i) := by
    rw [h2 i]
    exact boundary_congr _ _ _ _ (h3 i) rfl
  have hb2 : boundary (getPrev (c :: cs) (i + 1 + term.length))
        ((c :: cs).get? (i + 1 + term.length)) =
      boundary (getPrev cs (i + term.length)) (cs.get? (i + term.length)) := by
    have harith : i + 1 + term.length = (i + term.length) + 1 := by omega
    rw [harith, h2 (i + term.length)]
    exact boundary_congr _ _ _ _ (h3 (i + term.length)) rfl
  unfold matchAt
  rw [List.drop_succ_cons, hb1, hb2]

theorem occursWW_cons_nonword (term : List Char) (c : Char) (cs : List Char)
    (hc : isWordChar c = false) : occursWW term (c :: cs) = occursWW term cs := by
  unfold occursWW
  rw [Bool.eq_iff_iff, List.any_eq_true, List.any_eq_true]
  constructor
  · rintro ⟨i, hi, hm⟩
    cases i with
    | zero => rw [matchAt_cons_zero term c cs hc] at hm; cases hm
    | succ j =>
      rw [matchAt_cons_succ term c cs hc j] at hm
      refine ⟨j, ?_, hm⟩
      simp only [List.mem_range, List.length_cons] at hi ⊢
      omega
  · rintro ⟨j, hj, hm⟩
    refine ⟨j + 1, ?_, ?_⟩
    · simp only [List.mem_range, List.length_cons] at hj ⊢
      omega
    · rw [matchAt_cons_succ term c cs hc j]
      exact hm

theorem occursWW_prepend_nonword (term pre cs : List Char)
    (h : ∀ x ∈ pre, isWordChar x = false) :
    occursWW term (pre ++ cs) = occursWW term cs := by
  induction pre with
  | nil => rfl
  | cons p pt ih =>
    rw [List.cons_append, occursWW_cons_nonword term p _ (h p (by simp)),
      ih (fun x hx => h x (by simp [hx]))]

theorem isWordOpt_get?_snoc (cs : List Char) (c : Char)
    (hc : isWordChar c = false) (j : Nat) (hj : j ≤ cs.length) :
    isWordOpt ((cs ++ [c]).get? j) = isWordOpt (cs.get? j) := by
  rcases Nat.lt_or_ge j cs.length with hlt | hge
  · rw [List.get?_append hlt]
  · have hj' : j = cs.length := by omega
    subst hj'
    rw [List.get?_concat_length, List.get?_eq_none.mpr (le_refl _)]
    simpa [isWordOpt] using hc

theorem isWordOpt_getPrev_snoc (cs : List Char) (c : Char)
    (hc : isWordChar c = false) (j : Nat) (hj : j ≤ cs.length) :
    isWordOpt (getPrev (cs ++ [c]) j) = isWordOpt (getPrev cs j) := by
  unfold getPrev
  split_ifs
  · rfl
  · exact isWordOpt_get?_snoc cs c hc (j - 1) (by omega)

theorem matchAt_snoc_low (term cs : List Char) (c : Char)
    (hc : isWordChar c = false) (i : Nat) (h : i + term.length ≤ cs.length) :
    matchAt term (cs ++ [c]) i = matchAt term cs i := by
  have h1 : ciPrefix term ((cs ++ [c]).drop i) = ciPrefix term (cs.drop i) := by
    rw [List.drop_append_of_le_length (by omega)]
    exact ciPrefix_append term (cs.drop i) [c] (by rw [List.length_drop]; omega)
  have hb1 : boundary (getPrev (cs ++ [c]) i) ((cs ++ [c]).get? i) =
      boundary (getPrev cs i) (cs.get? i) :=
    boundary_congr _ _ _ _ (isWordOpt_getPrev_snoc cs c hc i (by omega))
      (isWordOpt_get?_snoc cs c hc i (by omega))
  have hb2 : boundary (getPrev (cs ++ [c]) (i + term.length))
        ((cs ++ [c]).get? (i + term.length)) =
      boundary (getPrev cs (i + term.length)) (cs.get? (i + term.length)) :=
    boundary_congr _ _ _ _ (isWordOpt_getPrev_snoc cs c hc _ h)
      (isWordOpt_get?_snoc cs c hc _ h)
  unfold matchAt
  rw [h1, hb1, hb2]

theorem matchAt_snoc_high (term cs : List Char) (c : Char)
    (hc : isWordChar c = false) (i : Nat) (h : cs.length < i + term.length) :
    matchAt term (cs ++ [c]) i = false := by
  have hb2 : boundary (getPrev (cs ++ [c]) (i + term.length))
      ((cs ++ [c]).get? (i + term.length)) = false := by
    have hlen : (cs ++ [c]).length = cs.length + 1 := by simp
    have h2 : ((cs ++ [c]).get? (i + term.length)) = none := by
      rw [List.get?_eq_none]
      omega
    have h1 : isWordOpt (getPrev (cs ++ [c]) (i + term.length)) = false := by
      unfold getPrev
      split_ifs with h0
      · rfl
      · rcases Nat.lt_or_ge (i + term.length - 1) (cs.length + 1) with hlt | hge2
        · have heq : i + term.length - 1 = cs.length := by omega
          rw [heq, List.get?_concat_length]
          simpa [isWordOpt] using hc
        · rw [List.get?_eq_none.mpr (by omega)]
          rfl
    unfold boundary
    rw [h1, h2]
    rfl
  unfold matchAt
  rw [hb2]
  simp

theorem occursWW_snoc_nonword (term cs : List Char) (c : Char)
    (hc : isWordChar c = false) : occursWW term (cs ++ [c]) = occursWW term cs := by
  unfold occursWW
  rw [Bool.eq_iff_iff, List.any_eq_true, List.any_eq_true]
  constructor
  · rintro ⟨i, hi, hm⟩
    rcases le_or_lt (i + term.length) cs.length with hle | hgt
    · refine ⟨i, ?_, ?_⟩
      · simp only [List.mem_range] at hi ⊢
        omega
      · rw [← matchAt_snoc_low term cs c hc i hle]
        exact hm
    · rw [matchAt_snoc_high term cs c hc i hgt] at hm
      cases hm
  · rintro ⟨i, hi, hm⟩
    have hp : ciPrefix term (cs.drop i) = true := by
      unfold matchAt at hm
      simp only [Bool.and_eq_true] at hm
      exact hm.1.1
    have hlen := ciPrefix_length term _ hp
    rw [List.length_drop] at hlen
    simp only [List.mem_range] at hi
    have hle : i + term.length ≤ cs.length := by omega
    refine ⟨i, ?_, ?_⟩
    · simp only [List.mem_range, List.length_append, List.length_singleton]
      omega
    · rw [matchAt_snoc_low term cs c hc i hle]
      exact hm

theorem occursWW_append_nonword (term cs post : List Char)
    (h : ∀ x ∈ post, isWordChar x = false) :
    occursWW term (cs ++ post) = occursWW term cs := by
  induction post generalizing cs with
  | nil => rw [List.append_nil]
  | cons p pt ih =>
    have hsplit : cs ++ p :: pt = (cs ++ [p]) ++ pt := by simp
    rw [hsplit, ih (cs ++ [p]) (fun x hx => h x (by simp [hx])),
      occursWW_snoc_nonword term cs p (h p (by simp))]

theorem isWordChar_eq_false_of_space (c : Char) (h : pyIsSpaceChar c = true) :
    isWordChar c = false := by
  simp only [pyIsSpaceChar, Bool.or_eq_true, beq_iff_eq] at h
  rcases h with ((((rfl | rfl) | rfl) | rfl) | rfl) | rfl <;> decide

/-- A whole-word, case-insensitive occurrence survives Python's
`strip()`: the matched region cannot touch the all-whitespace margins
(whitespace is never a word character, so the mandatory word boundaries
could not hold there), and the boundary characters the regex consults
keep their word-character status. -/
theorem occursWW_pyStripL (term cs : List Char) :
    occursWW term (pyStripL cs) = occursWW term cs := by
  have hsplit2 : cs.dropWhile pyIsSpaceChar =
      pyStripL cs ++ ((cs.dropWhile pyIsSpaceChar).reverse.takeWhile pyIsSpaceChar).reverse := by
    unfold pyStripL
    rw [← List.reverse_append, List.takeWhile_append_dropWhile, List.reverse_reverse]
  have htrail : ∀ x ∈ ((cs.dropWhile pyIsSpaceChar).reverse.takeWhile pyIsSpaceChar).reverse,
      isWordChar x = false := by
    intro x hx
    rw [List.mem_reverse] at hx
    exact isWordChar_eq_false_of_space x (List.mem_takeWhile_imp hx)
  have hlead : ∀ x ∈ cs.takeWhile pyIsSpaceChar, isWordChar x = false := fun x hx =>
    isWordChar_eq_false_of_space x (List.mem_takeWhile_imp hx)
  conv_rhs => rw [← List.takeWhile_append_dropWhile pyIsSpaceChar cs]
  rw [occursWW_prepend_nonword term _ _ hlead]
  conv_rhs => rw [hsplit2]
  rw [occursWW_append_nonword term _ _ htrail]

/-- The segmented sentence of `minerCx`: length 15 (within the bounds),
whole-word occurrence of `click`, but its stripped form has length
exactly 10, so the `10 < len` test fails and nothing is retained. -/
def minerCx : String := "a click bb     "

/-- C6 counterexample: a segmented sentence that contains the term as a
whole-word case-insensitive match and whose own length (15) lies
strictly within the bounds (10, 500) is nevertheless NOT retained: the
miner strips trailing/leading whitespace before the length test, and
the stripped form has length exactly 10. -/
theorem get_sentences_cx :
    splitSentencesList minerCx = [minerCx.data] ∧
    occursWW "click".data minerCx.data = true ∧
    minerCx.data.length = 15 ∧
    (pyStripL minerCx.data).length = 10 ∧
    get_sentences minerCx "click" = [] := by
  decide

/-- C6 (amended): every sentence the miner retains contains the term as
a whole-word, case-insensitive match and has length strictly between
the configured bounds 10 and 500; and conversely every segmented
sentence whose whitespace-STRIPPED form satisfies the whole-word match
and the strict length bounds is retained (as its stripped form) — the
code checks the match on the raw segment and the length on the stripped
segment, and the match is invariant under stripping. -/
theorem get_sentences_characterization (text term : String) :
    (∀ s ∈ get_sentences text term,
      occursWW term.data s.data = true ∧ 10 < s.length ∧ s.length < 500) ∧
    (∀ raw ∈ splitSentencesList text,
      occursWW term.data raw = true →
      10 < (pyStripL raw).length → (pyStripL raw).length < 500 →
      String.mk (pyStripL raw) ∈ get_sentences text term) := by
  constructor
  · intro s hs
    simp only [get_sentences, List.mem_filterMap] at hs
    obtain ⟨raw, hraw, heq⟩ := hs
    split_ifs at heq with h1 h2
    obtain rfl := (Option.some.injEq _ _).mp heq
    simp only [Bool.and_eq_true, decide_eq_true_eq] at h2
    refine ⟨?_, h2.1, h2.2⟩
    show occursWW term.data (pyStripL raw) = true
    rw [occursWW_pyStripL]
    exact h1
  · intro raw hraw h1 h2 h3
    simp only [get_sentences, List.mem_filterMap]
    refine ⟨raw, hraw, ?_⟩
    rw [if_pos h1, if_pos (by simp [h2, h3])]

/-- Witness for C6 (amended), on a concrete page text: the single
retained sentence of `"The users click here. No match there."` for the
term `"Click"`. -/
theorem get_sentences_characterization_witness :
    get_sentences "The users click here. No match there." "Click" =
      ["The users click here."] ∧
    (occursWW "Click".data ("The users click here." : String).data = true ∧
      10 < ("The users click here." : String).length ∧
      ("The users click here." : String).length < 500) :=
  ⟨by decide,
   (get_sentences_characterization "The users click here. No match there." "Click").1
     "The users click here." (by decide)⟩

end Borrowings
